import Mathlib

/-
Verification of the node-level B+Tree storage engine (src/main.go).

The Go code works on raw byte buffers with uint16 arithmetic.  We embed a
buffer as a list of natural numbers (each byte kept below 256) and keep every
uint16 computation explicit: additions, subtractions and multiplications are
reduced modulo 2 to the 16, exactly as Go uint16 arithmetic behaves.  A Go
panic is embedded as Except.error carrying the panic message; out-of-range
list reads yield 0 and out-of-range list writes are dropped, which is only
relied upon at points the proofs do not touch.
-/

namespace BT

/- byte-level primitives -/

def byteAt (data : List Nat) (i : Nat) : Nat := data.getD i 0 % 256

def writeByte (data : List Nat) (i v : Nat) : List Nat := data.set i (v % 256)

def read16 (data : List Nat) (pos : Nat) : Nat :=
  byteAt data pos + 256 * byteAt data (pos + 1)

def write16 (data : List Nat) (pos v : Nat) : List Nat :=
  writeByte (writeByte data pos (v % 256)) (pos + 1) (v / 256 % 256)

def read64 (data : List Nat) (pos : Nat) : Nat :=
  byteAt data pos + 256 * (byteAt data (pos + 1) + 256 * (byteAt data (pos + 2) +
    256 * (byteAt data (pos + 3) + 256 * (byteAt data (pos + 4) +
    256 * (byteAt data (pos + 5) + 256 * (byteAt data (pos + 6) +
    256 * byteAt data (pos + 7)))))))

def write64 (data : List Nat) (pos v : Nat) : List Nat :=
  writeByte (writeByte (writeByte (writeByte (writeByte (writeByte (writeByte
    (writeByte data pos (v % 256))
    (pos + 1) (v / 256 % 256))
    (pos + 2) (v / 256 ^ 2 % 256))
    (pos + 3) (v / 256 ^ 3 % 256))
    (pos + 4) (v / 256 ^ 4 % 256))
    (pos + 5) (v / 256 ^ 5 % 256))
    (pos + 6) (v / 256 ^ 6 % 256))
    (pos + 7) (v / 256 ^ 7 % 256)

/-- Go uint16 addition. -/
def add16 (a b : Nat) : Nat := (a + b) % 65536

/-- Go uint16 subtraction (two-complement wraparound). -/
def sub16 (a b : Nat) : Nat := (a % 65536 + 65536 - b % 65536) % 65536

/-- Go uint16 multiplication. -/
def mul16 (a b : Nat) : Nat := a * b % 65536

/-- One-by-one byte copy, Go copy(dst[pos:], src): bytes beyond the
destination length are dropped. -/
def copyBytes (dst : List Nat) (pos : Nat) (src : List Nat) : List Nat :=
  match src with
  | [] => dst
  | b :: bs => copyBytes (writeByte dst pos b) (pos + 1) bs

/-- Byte-lexicographic comparison, as bytes.Compare in Go:
negative, zero, positive for less, equal, greater. -/
def cmpList : List Nat → List Nat → Int
  | [], [] => 0
  | [], _ :: _ => -1
  | _ :: _, [] => 1
  | a :: as, b :: bs => if a < b then -1 else if b < a then 1 else cmpList as bs

/- constants from the source -/

def BNODE_NODE : Nat := 1
def BNODE_LEAF : Nat := 2
def HEADER : Nat := 4
def BTREE_PAGE_SIZE : Nat := 4096
def BTREE_MAX_KEY_SIZE : Nat := 1000
def BTREE_MAX_VALUE_SIZE : Nat := 3000

/- panic messages of the source, named so that string literals never follow
an identifier directly -/

def msgGetPointer : String :=
  "getPointer called with index greater than number of keys for the node"
def msgSetPointer : String :=
  "setPointer called with index greater than number of keys for the node"
def msgOffsetPos : String :=
  "offsetPosition called with index greater than number of keys for the node or index is less than 1"
def msgGetKey : String :=
  "getKey called with index greater than number of keys for the node"
def msgRange1 : String := "nodeAppendRange dstNew+n is greater than n"
def msgRange2 : String := "nodeAppendRange scrOld+n is greater than n"
def msgSplit3 : String := "leftleft.nbytes() > BTREE_PAGE_SIZE in nodesplit3"
def msgBadType : String := "Bad node type!"
def msgFuel : String := "recursion fuel exhausted"

/-- A node buffer: the Go struct BNode holds one byte slice. -/
structure BNode where
  data : List Nat
deriving DecidableEq

def orFail (o : Option α) (msg : String) : Except String α :=
  match o with
  | some a => Except.ok a
  | none => Except.error msg

/- the node codec, translated method by method from src/main.go -/

def BNode.getNodeType (b : BNode) : Nat := read16 b.data 0

def BNode.getNumberOfKeys (b : BNode) : Nat := read16 b.data 2

def BNode.setHeaders (b : BNode) (nodeType numberOfKeys : Nat) : BNode :=
  BNode.mk (write16 (write16 b.data 0 nodeType) 2 numberOfKeys)

def BNode.getPointer (b : BNode) (index : Nat) : Option Nat :=
  if b.getNumberOfKeys ≤ index then none
  else some (read64 b.data (add16 HEADER (mul16 8 index)))

def BNode.setPointer (b : BNode) (index value : Nat) : Option BNode :=
  if b.getNumberOfKeys ≤ index then none
  else some (BNode.mk (write64 b.data (add16 HEADER (mul16 8 index)) value))

def offsetPosition (b : BNode) (index : Nat) : Option Nat :=
  if b.getNumberOfKeys < index ∨ index < 1 then none
  else some (add16 (add16 HEADER (mul16 8 b.getNumberOfKeys)) (mul16 2 (sub16 index 1)))

def BNode.getOffset (b : BNode) (index : Nat) : Option Nat :=
  if index = 0 then some 0
  else
    match offsetPosition b index with
    | none => none
    | some pos => some (read16 b.data pos)

def BNode.setOffset (b : BNode) (index offset : Nat) : Option BNode :=
  match offsetPosition b index with
  | none => none
  | some pos => some (BNode.mk (write16 b.data pos offset))

/-- Go: HEADER + 8*n + (2*n - 1) + offset, in uint16 arithmetic.  Note the
source subtracts 1 where the spec formula has none. -/
def BNode.getKeyValuePosition (b : BNode) (index : Nat) : Option Nat :=
  match b.getOffset index with
  | none => none
  | some off =>
    some (add16 (add16 (add16 HEADER (mul16 8 b.getNumberOfKeys))
      (sub16 (mul16 2 b.getNumberOfKeys) 1)) off)

def BNode.getKey (b : BNode) (index : Nat) : Option (List Nat) :=
  if b.getNumberOfKeys ≤ index then none
  else
    match b.getKeyValuePosition index with
    | none => none
    | some kvPos =>
      some ((b.data.drop (add16 kvPos 4)).take (read16 b.data kvPos))

def BNode.getValue (b : BNode) (index : Nat) : Option (List Nat) :=
  if b.getNumberOfKeys ≤ index then none
  else
    match b.getKeyValuePosition index with
    | none => none
    | some kvPos =>
      some ((b.data.drop (add16 (add16 kvPos 4) (read16 b.data kvPos))).take
        (read16 b.data (add16 kvPos 2)))

def BNode.nbytes (b : BNode) : Option Nat :=
  b.getKeyValuePosition b.getNumberOfKeys

/-- Total accessor used only to state sortedness hypotheses; it agrees with
BNode.getKey on every in-range index. -/
def getKeyCore (b : BNode) (index : Nat) : List Nat :=
  match b.getKey index with
  | some k => k
  | none => []

/- node query (nodeLookUp), with explicit fuel making the Go for-loop a
structural recursion; the initial fuel getNumberOfKeys strictly exceeds the
number of iterations the loop can make from i = 1 -/

def nodeLookUpAux (node : BNode) (key : List Nat) : Nat → Nat → Nat → Option Nat
  | 0, _, found => some found
  | fuel + 1, i, found =>
    if i < node.getNumberOfKeys then
      match node.getKey i with
      | none => none
      | some k =>
        if cmpList k key ≤ 0 then nodeLookUpAux node key fuel (i + 1) i
        else some found
    else some found

def nodeLookUp (node : BNode) (key : List Nat) : Option Nat :=
  nodeLookUpAux node key node.getNumberOfKeys 1 0

/- buffer mutators, translated from src/main.go; Go mutates the byte slice in
place, here each step returns the updated buffer, and each panic becomes an
Except.error with the corresponding message -/

def bnodeAppendRange (nw old : BNode) (dstNew srcOld n : Nat) : Except String BNode :=
  if n < add16 dstNew n then Except.error msgRange1
  else if n < add16 srcOld n then Except.error msgRange2
  else if n = 0 then Except.ok nw
  else do
    let nw ← (List.range n).foldlM (fun (acc : BNode) i => do
      let p ← orFail (old.getPointer (add16 srcOld i)) msgGetPointer
      orFail (acc.setPointer (add16 dstNew i) p) msgSetPointer) nw
    let dstBegin ← orFail (nw.getOffset dstNew) msgOffsetPos
    let srcBegin ← orFail (old.getOffset srcOld) msgOffsetPos
    let nw ← (List.range n).foldlM (fun (acc : BNode) i => do
      let so ← orFail (old.getOffset (add16 srcOld (i + 1))) msgOffsetPos
      orFail (acc.setOffset (add16 dstNew (i + 1)) (sub16 (add16 dstBegin so) srcBegin))
        msgOffsetPos) nw
    let bgn ← orFail (old.getKeyValuePosition srcOld) msgOffsetPos
    let ed ← orFail (old.getKeyValuePosition (add16 srcOld n)) msgOffsetPos
    let dpos ← orFail (nw.getKeyValuePosition dstNew) msgOffsetPos
    Except.ok (BNode.mk (copyBytes nw.data dpos ((old.data.drop bgn).take (ed - bgn))))

def bnodeAppendKV (nw : BNode) (pointer : Nat) (key value : List Nat)
    (index : Nat) : Except String BNode := do
  let nw ← orFail (nw.setPointer index pointer) msgSetPointer
  let pos ← orFail (nw.getKeyValuePosition index) msgOffsetPos
  let d := write16 nw.data pos (key.length % 65536)
  let d := write16 d (add16 pos 2) (value.length % 65536)
  let d := copyBytes d (add16 pos 4) key
  let d := copyBytes d (add16 (add16 pos 4) (key.length % 65536)) value
  let nw : BNode := BNode.mk d
  let off ← orFail (nw.getOffset index) msgOffsetPos
  orFail (nw.setOffset (add16 index 1)
    (add16 (add16 off 4) ((key.length + value.length) % 65536))) msgOffsetPos

def leafInsert (old nw : BNode) (index : Nat) (key value : List Nat) :
    Except String BNode := do
  let nw := nw.setHeaders BNODE_LEAF (add16 old.getNumberOfKeys 1)
  let nw ← bnodeAppendRange nw old 0 0 index
  let nw ← bnodeAppendKV nw 0 key value index
  bnodeAppendRange nw old (add16 index 1) index (sub16 old.getNumberOfKeys index)

def leafUpdate (old nw : BNode) (index : Nat) (key value : List Nat) :
    Except String BNode := do
  let nw := nw.setHeaders BNODE_LEAF old.getNumberOfKeys
  let nw ← bnodeAppendRange nw old 0 0 index
  let nw ← bnodeAppendKV nw 0 key value index
  bnodeAppendRange nw old (add16 index 1) (add16 index 1)
    (sub16 old.getNumberOfKeys (add16 index 1))

/-- nodeSplit2 from the source; its body is explicitly marked code omitted
there: the second range copy passes nKeys as the count and no header is ever
set on the right node. -/
def nodeSplit2 (left right old : BNode) : Except String (BNode × BNode) := do
  let nKeys := old.getNumberOfKeys
  let left := left.setHeaders old.getNodeType (nKeys / 2)
  let left ← bnodeAppendRange left old 0 0 (nKeys / 2)
  let right ← bnodeAppendRange right old 0 (add16 (nKeys / 2) 1) nKeys
  Except.ok (left, right)

def nodeSplit3 (old : BNode) : Except String (Nat × List BNode) := do
  let sz ← orFail old.nbytes msgOffsetPos
  if sz ≤ BTREE_PAGE_SIZE then
    Except.ok (1, [BNode.mk (old.data.take BTREE_PAGE_SIZE)])
  else do
    let left : BNode := BNode.mk (List.replicate (2 * BTREE_PAGE_SIZE) 0)
    let right : BNode := BNode.mk (List.replicate BTREE_PAGE_SIZE 0)
    let lr ← nodeSplit2 left right old
    let lsz ← orFail lr.1.nbytes msgOffsetPos
    if lsz ≤ BTREE_PAGE_SIZE then
      Except.ok (2, [BNode.mk (lr.1.data.take BTREE_PAGE_SIZE), lr.2])
    else do
      let leftleft : BNode := BNode.mk (List.replicate BTREE_PAGE_SIZE 0)
      let middle : BNode := BNode.mk (List.replicate BTREE_PAGE_SIZE 0)
      let lm ← nodeSplit2 leftleft middle lr.1
      let llsz ← orFail lm.1.nbytes msgOffsetPos
      if BTREE_PAGE_SIZE < llsz then Except.error msgSplit3
      else Except.ok (3, [lm.1, lm.2, lr.2])

/- the page-store capability: the Go BTree struct injects get, new and del as
functions; the model keeps a fresh-id allocator and a log of the calls made,
so that call-order claims become statements about the log -/

inductive Ev where
  | get : Nat → Ev
  | free : Nat → Ev
  | alloc : Nat → Ev
deriving DecidableEq

structure TreeSt where
  getFn : Nat → BNode
  nextId : Nat
  trace : List Ev

def stGet (s : TreeSt) (p : Nat) : BNode × TreeSt :=
  (s.getFn p, TreeSt.mk s.getFn s.nextId (s.trace ++ [Ev.get p]))

def stDel (s : TreeSt) (p : Nat) : TreeSt :=
  TreeSt.mk s.getFn s.nextId (s.trace ++ [Ev.free p])

def stAlloc (s : TreeSt) (_b : BNode) : Nat × TreeSt :=
  (s.nextId, TreeSt.mk s.getFn (s.nextId + 1) (s.trace ++ [Ev.alloc s.nextId]))

/-- The for-loop of nodeReplaceKidN: Go evaluates tree.new(node) before
node.getKey(0) in the argument list of bnodeAppendKV. -/
def replaceKidsLoop (s : TreeSt) (nw : BNode) (idx i : Nat) :
    List BNode → (Except String BNode) × TreeSt
  | [] => (Except.ok nw, s)
  | kid :: rest =>
    let as2 := stAlloc s kid
    match kid.getKey 0 with
    | none => (Except.error msgGetKey, as2.2)
    | some k =>
      match bnodeAppendKV nw as2.1 k [] (add16 idx i) with
      | Except.error e => (Except.error e, as2.2)
      | Except.ok nw2 => replaceKidsLoop as2.2 nw2 idx (i + 1) rest

def nodeReplaceKidN (s : TreeSt) (nw old : BNode) (idx : Nat) (kids : List BNode) :
    (Except String BNode) × TreeSt :=
  let inc := kids.length
  let nw := nw.setHeaders BNODE_NODE (sub16 (add16 old.getNumberOfKeys inc) 1)
  match bnodeAppendRange nw old 0 0 idx with
  | Except.error e => (Except.error e, s)
  | Except.ok nw =>
    let rl := replaceKidsLoop s nw idx 0 kids
    match rl.1 with
    | Except.error e => (Except.error e, rl.2)
    | Except.ok nw =>
      match bnodeAppendRange nw old (add16 idx inc) (add16 idx 1)
        (sub16 old.getNumberOfKeys (add16 idx 1)) with
      | Except.error e => (Except.error e, rl.2)
      | Except.ok nw => (Except.ok nw, rl.2)

/-- Body of nodeInsert with the mutually recursive call on treeInsert
abstracted as rec; treeInsert ties the knot through explicit fuel. -/
def nodeInsertF
    (rec : TreeSt → BNode → List Nat → List Nat → (Except String BNode) × TreeSt)
    (s : TreeSt) (nw node : BNode) (index : Nat) (key value : List Nat) :
    (Except String BNode) × TreeSt :=
  match node.getPointer index with
  | none => (Except.error msgGetPointer, s)
  | some nodePointer =>
    let cs := stGet s nodePointer
    let child := cs.1
    let s := stDel cs.2 nodePointer
    let rr := rec s child key value
    match rr.1 with
    | Except.error e => (Except.error e, rr.2)
    | Except.ok child =>
      match nodeSplit3 child with
      | Except.error e => (Except.error e, rr.2)
      | Except.ok ns => nodeReplaceKidN rr.2 nw node index (ns.2.take ns.1)

def treeInsert : Nat → TreeSt → BNode → List Nat → List Nat →
    (Except String BNode) × TreeSt
  | 0, s, _, _, _ => (Except.error msgFuel, s)
  | fuel + 1, s, node, key, value =>
    let nw : BNode := BNode.mk (List.replicate (2 * BTREE_PAGE_SIZE) 0)
    match nodeLookUp node key with
    | none => (Except.error msgGetKey, s)
    | some index =>
      if node.getNodeType = BNODE_LEAF then
        match node.getKey index with
        | none => (Except.error msgGetKey, s)
        | some k =>
          if key = k then (leafUpdate node nw index key value, s)
          else (leafInsert node nw (add16 index 1) key value, s)
      else if node.getNodeType = BNODE_NODE then
        nodeInsertF (treeInsert fuel) s nw node index key value
      else (Except.error msgBadType, s)

def nodeInsert (fuel : Nat) (s : TreeSt) (nw node : BNode) (index : Nat)
    (key value : List Nat) : (Except String BNode) × TreeSt :=
  nodeInsertF (treeInsert fuel) s nw node index key value

/- file-system model for saveDataAtomic: paths map to contents; the OS calls
used by the source (open with O_CREATE and O_EXCL, write, remove, rename) are
modelled on that map; a write failure is injected through a boolean, as in
scenario E of the spec -/

def msgExists : String := "file exists"
def msgWriteFail : String := "write failed"

abbrev FS := List (String × List Nat)

def fsLookup : FS → String → Option (List Nat)
  | [], _ => none
  | (q, c) :: rest, p => if q = p then some c else fsLookup rest p

def fsRemove : FS → String → FS
  | [], _ => []
  | (q, c) :: rest, p => if q = p then fsRemove rest p else (q, c) :: fsRemove rest p

def fsSet (fs : FS) (p : String) (c : List Nat) : FS := (p, c) :: fsRemove fs p

def fsRename (fs : FS) (src dst : String) : FS :=
  match fsLookup fs src with
  | none => fs
  | some c => fsSet (fsRemove fs src) dst c

/-- saveDataAtomic from src/main.go: r stands for the value of rand.Int(),
writeFails injects a failure of fp.Write.  Returns the final file system and
the error, if any. -/
def saveDataAtomic (fs : FS) (r : Nat) (writeFails : Bool) (path : String)
    (data : List Nat) : FS × Option String :=
  let tempFile := path ++ ".tmp." ++ toString r
  match fsLookup fs tempFile with
  | some _ => (fs, some msgExists)
  | none =>
    let fs := fsSet fs tempFile []
    if writeFails then (fsRemove fs tempFile, some msgWriteFail)
    else (fsRename (fsSet fs tempFile data) tempFile path, none)

/- concrete buffers used in the evaluations below -/

/-- One key, key count 1, offset(0) = 0. -/
def oneKeyNode : BNode := BNode.mk [2, 0, 1, 0]

/-- A leaf with the three keys a, b, c (each with an empty value), encoded
with the key-value region exactly where getKeyValuePosition of the source
puts it. -/
def leafABC : BNode :=
  BNode.mk ([2, 0, 3, 0] ++ List.replicate 24 0 ++
    [5, 0, 10, 0, 15, 1, 0, 0, 0, 97, 1, 0, 0, 0, 98, 1, 0, 0, 0, 99])

/-- Two keys, with offset(2) = 4090 so that nbytes = 4113 exceeds the page
size and nodeSplit3 takes the split path. -/
def twoKeyOversized : BNode :=
  BNode.mk ([2, 0, 2, 0] ++ List.replicate 16 0 ++ [0, 0, 250, 15])

/-- A minimal node with two keys for the nodeSplit2 evaluation. -/
def twoKeyLeaf : BNode := BNode.mk [2, 0, 2, 0]

/-- The leaf of scenario B, holding the single record (a, 1), encoded as the
source decodes it: key count 1, offset(1) = 6, key-value record at position
13 as computed by getKeyValuePosition. -/
def oldLeafA : BNode :=
  BNode.mk [2, 0, 1, 0, 0, 0, 0, 0, 0, 0, 0, 0, 6, 1, 0, 1, 0, 97, 49]

/-- A fresh working buffer of twice the page size, as treeInsert allocates. -/
def workBuf : BNode := BNode.mk (List.replicate (2 * BTREE_PAGE_SIZE) 0)

/-- An internal node with one key whose child pointer is page id 7. -/
def oldInternal : BNode := BNode.mk [1, 0, 1, 0, 7, 0, 0, 0, 0, 0, 0, 0]

/-- A one-key leaf child, key k (byte 107) with an empty value. -/
def kidLeaf : BNode :=
  BNode.mk [2, 0, 1, 0, 0, 0, 0, 0, 0, 0, 0, 0, 5, 1, 0, 0, 0, 107]

/-- A leaf with zero keys. -/
def emptyLeaf : BNode := BNode.mk [2, 0, 0, 0]

/-- A store whose get always returns the empty buffer. -/
def s0 : TreeSt := TreeSt.mk (fun _ => BNode.mk []) 0 []

/-- A store whose get always returns kidLeaf. -/
def s1 : TreeSt := TreeSt.mk (fun _ => kidLeaf) 0 []

/-- A file system holding one file named db. -/
def exFS : FS := [("db", [9])]

/- helper lemmas about the codec -/

theorem getOffset_isSome (b : BNode) (i : Nat) (h : i ≤ b.getNumberOfKeys) :
    ∃ off, b.getOffset i = some off := by
  unfold BNode.getOffset offsetPosition
  by_cases h0 : i = 0
  · simp [h0]
  · have hcond : ¬ (b.getNumberOfKeys < i ∨ i < 1) := by omega
    have hlt : ¬ b.getNumberOfKeys < i := by omega
    simp [h0, hcond, hlt]

theorem getKeyValuePosition_isSome (b : BNode) (i : Nat) (h : i ≤ b.getNumberOfKeys) :
    ∃ pos, b.getKeyValuePosition i = some pos := by
  obtain ⟨off, hoff⟩ := getOffset_isSome b i h
  unfold BNode.getKeyValuePosition
  rw [hoff]
  exact ⟨_, rfl⟩

theorem getKey_isSome (b : BNode) (i : Nat) (h : i < b.getNumberOfKeys) :
    ∃ k, b.getKey i = some k := by
  obtain ⟨pos, hpos⟩ := getKeyValuePosition_isSome b i (Nat.le_of_lt h)
  unfold BNode.getKey
  rw [if_neg (by omega), hpos]
  exact ⟨_, rfl⟩

theorem getKey_eq (b : BNode) (i : Nat) (h : i < b.getNumberOfKeys) :
    b.getKey i = some (getKeyCore b i) := by
  obtain ⟨k, hk⟩ := getKey_isSome b i h
  rw [hk]
  unfold getKeyCore
  rw [hk]

theorem cmpList_le_trans : ∀ a b c : List Nat,
    cmpList a b ≤ 0 → cmpList b c ≤ 0 → cmpList a c ≤ 0 := by
  intro a
  induction a with
  | nil =>
    intro b c _ _
    cases c with
    | nil => simp [cmpList]
    | cons z zs => simp [cmpList]
  | cons x xs ih =>
    intro b c h1 h2
    cases b with
    | nil => simp [cmpList] at h1
    | cons y ys =>
      cases c with
      | nil => simp [cmpList] at h2
      | cons z zs =>
        simp only [cmpList] at h1 h2 ⊢
        split_ifs at h1 h2 ⊢ <;> first | omega | exact ih ys zs h1 h2

/-- Supporting fact: on a node with zero keys the uint16 expression 2*n - 1
wraps around, so nbytes returns 3 instead of the 4 header bytes. -/
theorem emptyLeaf_nbytes : BNode.nbytes emptyLeaf = some 3 := rfl

/-- C1: the claim states keyValuePos(i) = HEADER + 8n + 2n + offset(i); the
source computes HEADER + 8n + (2n - 1) + offset(i).  On a node with one key
and offset 0 the source yields 13 while the claimed formula yields 14, so the
offsets array overlaps the first key-value record by one byte. -/
theorem getKeyValuePosition_off_by_one :
    BNode.getKeyValuePosition oneKeyNode 0 = some 13 ∧
    HEADER + 8 * oneKeyNode.getNumberOfKeys + 2 * oneKeyNode.getNumberOfKeys + 0 = 14 :=
  ⟨rfl, rfl⟩

/-- C2: splitToFit (nodeSplit3) on an oversized node (nbytes 4113 > 4096)
does not return fragments at all: it panics inside nodeSplit2, whose second
bnodeAppendRange call trips the srcOld+n guard. -/
theorem nodeSplit3_oversized_panics :
    BNode.nbytes twoKeyOversized = some 4113 ∧
    nodeSplit3 twoKeyOversized = Except.error msgRange2 :=
  ⟨rfl, rfl⟩

/-- C3: splitInTwo (nodeSplit2) never produces the two fragments: on a node
with two keys it panics in the guard of its second bnodeAppendRange call
(srcOld = 2, n = 2), and the right header is never set. -/
theorem nodeSplit2_panics :
    nodeSplit2 workBuf (BNode.mk (List.replicate BTREE_PAGE_SIZE 0)) twoKeyLeaf
      = Except.error msgRange2 :=
  rfl

/-- C4: scenario B input, the leaf holding the record (a, 1); leafInsert of
(b, 2) at index 1 does not produce the two-key leaf: its final
bnodeAppendRange call has dstNew = 2, n = 0 and panics on the guard. -/
theorem leafInsert_scenarioB_panics :
    BNode.getKey oldLeafA 0 = some [97] ∧ BNode.getValue oldLeafA 0 = some [49] ∧
    leafInsert oldLeafA workBuf 1 [98] [50] = Except.error msgRange1 :=
  ⟨rfl, rfl, rfl⟩

/-- C6: replaceChild (nodeReplaceKidN) with one kid on a one-key parent does
not produce the replacement node: after the allocate call for the kid is
made, the final bnodeAppendRange call has dstNew = 1, n = 0 and panics on the
guard. -/
theorem nodeReplaceKidN_panics :
    (nodeReplaceKidN s0 workBuf oldInternal 0 [kidLeaf]).1 = Except.error msgRange1 ∧
    (nodeReplaceKidN s0 workBuf oldInternal 0 [kidLeaf]).2.trace = [Ev.alloc 0] :=
  ⟨rfl, rfl⟩

/-- C7: bnodeAppendRange rejects every call whose destination start index is
positive (when dstNew + n does not wrap around 2 to the 16), and likewise for
a positive source start index: the guards compare dstNew + n and srcOld + n
against n itself, so the function panics before copying anything, even when
n = 0. -/
theorem bnodeAppendRange_guard (nw old : BNode) (dstNew srcOld n : Nat)
    (h : (0 < dstNew ∧ dstNew + n < 65536) ∨ (0 < srcOld ∧ srcOld + n < 65536)) :
    ∃ e, bnodeAppendRange nw old dstNew srcOld n = Except.error e := by
  unfold bnodeAppendRange
  by_cases g1 : n < add16 dstNew n
  · rw [if_pos g1]
    exact ⟨msgRange1, rfl⟩
  · rw [if_neg g1]
    rcases h with ⟨hd, hw⟩ | ⟨hsrc, hw⟩
    · exact absurd (by unfold add16; rw [Nat.mod_eq_of_lt hw]; omega) g1
    · have g2 : n < add16 srcOld n := by
        unfold add16
        rw [Nat.mod_eq_of_lt hw]
        omega
      rw [if_pos g2]
      exact ⟨msgRange2, rfl⟩

/-- Witness for C7 at dstNew = 1, srcOld = 0, n = 0: a fully in-bounds,
empty copy is still rejected. -/
theorem bnodeAppendRange_guard_witness :
    (0 < 1 ∧ 1 + 0 < 65536) ∧
    ∃ e, bnodeAppendRange (BNode.mk []) (BNode.mk []) 1 0 0 = Except.error e :=
  ⟨⟨Nat.one_pos, by omega⟩,
    bnodeAppendRange_guard (BNode.mk []) (BNode.mk []) 1 0 0
      (Or.inl ⟨Nat.one_pos, by omega⟩)⟩

/-- One unfolding step of the nodeLookUp loop at an in-range index. -/
theorem nodeLookUpAux_step (node : BNode) (key : List Nat) (f i found : Nat)
    (hi : i < node.getNumberOfKeys) (k : List Nat) (hk : node.getKey i = some k) :
    nodeLookUpAux node key (f + 1) i found =
      if cmpList k key ≤ 0 then nodeLookUpAux node key f (i + 1) i
      else some found := by
  simp only [nodeLookUpAux]
  rw [if_pos hi, hk]

/-- Loop invariant proof for nodeLookUp: entering an iteration at index i
with accumulator found, either no key has matched yet (i = 1, found = 0) or
found = i - 1 is the last matching index seen. -/
theorem nodeLookUpAux_spec (node : BNode) (key : List Nat)
    (hs : ∀ j, j < node.getNumberOfKeys → ∀ i, i ≤ j →
      cmpList (getKeyCore node i) (getKeyCore node j) ≤ 0) :
    ∀ fuel i found, 1 ≤ i → i ≤ node.getNumberOfKeys →
      node.getNumberOfKeys + 1 ≤ fuel + i →
      ((i = 1 ∧ found = 0) ∨
        (found + 1 = i ∧ 1 ≤ found ∧ cmpList (getKeyCore node found) key ≤ 0)) →
      ∃ r, nodeLookUpAux node key fuel i found = some r ∧
        ((r = 0 ∧ ∀ j, 1 ≤ j → j < node.getNumberOfKeys →
            0 < cmpList (getKeyCore node j) key) ∨
          (1 ≤ r ∧ r < node.getNumberOfKeys ∧
            cmpList (getKeyCore node r) key ≤ 0 ∧
            ∀ j, r < j → j < node.getNumberOfKeys →
              0 < cmpList (getKeyCore node j) key)) := by
  intro fuel
  induction fuel with
  | zero => intro i found h1 h2 h3 _; omega
  | succ f ih =>
    intro i found h1 h2 h3 hinv
    by_cases hi : i < node.getNumberOfKeys
    · rw [nodeLookUpAux_step node key f i found hi (getKeyCore node i)
        (getKey_eq node i hi)]
      by_cases hc : cmpList (getKeyCore node i) key ≤ 0
      · rw [if_pos hc]
        exact ih (i + 1) i (by omega) (by omega) (by omega) (Or.inr ⟨rfl, h1, hc⟩)
      · rw [if_neg hc]
        refine ⟨found, rfl, ?_⟩
        rcases hinv with ⟨hi1, hf0⟩ | ⟨hfi, hf1, hle⟩
        · subst hi1
          subst hf0
          left
          refine ⟨rfl, ?_⟩
          intro j hj1 hjn
          by_contra hcon
          push_neg at hcon
          exact hc (cmpList_le_trans _ _ _ (hs j hjn 1 hj1) hcon)
        · right
          refine ⟨hf1, by omega, hle, ?_⟩
          intro j hj hjn
          by_contra hcon
          push_neg at hcon
          exact hc (cmpList_le_trans _ _ _ (hs j hjn i (by omega)) hcon)
    · simp only [nodeLookUpAux]
      rw [if_neg hi]
      refine ⟨found, rfl, ?_⟩
      rcases hinv with ⟨hi1, hf0⟩ | ⟨hfi, hf1, hle⟩
      · left
        refine ⟨hf0, ?_⟩
        intro j hj1 hjn
        exact absurd hjn (by omega)
      · right
        refine ⟨hf1, by omega, hle, ?_⟩
        intro j hj hjn
        exact absurd hjn (by omega)

/-- C5: on a node whose keys are sorted (the B+Tree invariant), nodeLookUp
returns the largest index i in 1..keyCount-1 whose key is at most the target
under byte-lexicographic comparison, and 0 when no index beyond 0
satisfies this. -/
theorem nodeLookUp_spec (node : BNode) (key : List Nat)
    (hn : 1 ≤ node.getNumberOfKeys)
    (hs : ∀ j, j < node.getNumberOfKeys → ∀ i, i ≤ j →
      cmpList (getKeyCore node i) (getKeyCore node j) ≤ 0) :
    ∃ r, nodeLookUp node key = some r ∧
      ((r = 0 ∧ ∀ j, 1 ≤ j → j < node.getNumberOfKeys →
          0 < cmpList (getKeyCore node j) key) ∨
        (1 ≤ r ∧ r < node.getNumberOfKeys ∧
          cmpList (getKeyCore node r) key ≤ 0 ∧
          ∀ j, r < j → j < node.getNumberOfKeys →
            0 < cmpList (getKeyCore node j) key)) := by
  have h := nodeLookUpAux_spec node key hs node.getNumberOfKeys 1 0 le_rfl hn
    (by omega) (Or.inl ⟨rfl, rfl⟩)
  simpa [nodeLookUp] using h

/-- Witness for C5 on the leaf with keys a, b, c and the target b. -/
theorem nodeLookUp_spec_witness :
    (1 ≤ leafABC.getNumberOfKeys ∧
      ∀ j, j < leafABC.getNumberOfKeys → ∀ i, i ≤ j →
        cmpList (getKeyCore leafABC i) (getKeyCore leafABC j) ≤ 0) ∧
    ∃ r, nodeLookUp leafABC [98] = some r ∧
      ((r = 0 ∧ ∀ j, 1 ≤ j → j < leafABC.getNumberOfKeys →
          0 < cmpList (getKeyCore leafABC j) [98]) ∨
        (1 ≤ r ∧ r < leafABC.getNumberOfKeys ∧
          cmpList (getKeyCore leafABC r) [98] ≤ 0 ∧
          ∀ j, r < j → j < leafABC.getNumberOfKeys →
            0 < cmpList (getKeyCore leafABC j) [98])) :=
  ⟨⟨by decide, by decide⟩, nodeLookUp_spec leafABC [98] (by decide) (by decide)⟩

/-- Scenario C of the spec, checked by direct evaluation: lookup of b is 1,
lookup of aa is 0, lookup of z is 2 on the leaf with keys a, b, c. -/
theorem nodeLookUp_scenarioC :
    nodeLookUp leafABC [98] = some 1 ∧ nodeLookUp leafABC [97, 97] = some 0 ∧
    nodeLookUp leafABC [122] = some 2 :=
  ⟨rfl, rfl, rfl⟩

/-- C8: the Tree Insert Orchestrator on a leaf with zero keys always aborts
with the getKey bounds panic: nodeLookUp returns 0 and the equal-key test
calls getKey 0, which rejects index 0 on a zero-key node, so no key can be
inserted into an empty leaf through this interface.  The fuel bound only
expresses that the call actually runs. -/
theorem treeInsert_emptyLeaf_panics (fuel : Nat) (s : TreeSt) (node : BNode)
    (key value : List Nat) (hf : 0 < fuel) (ht : node.getNodeType = BNODE_LEAF)
    (h0 : node.getNumberOfKeys = 0) :
    (treeInsert fuel s node key value).1 = Except.error msgGetKey := by
  cases fuel with
  | zero => exact absurd hf (by omega)
  | succ f =>
    have hl : nodeLookUp node key = some 0 := by
      unfold nodeLookUp
      rw [h0]
      rfl
    have hk : node.getKey 0 = none := by
      unfold BNode.getKey
      rw [if_pos (by omega)]
    simp only [treeInsert, hl, hk]
    rw [if_pos ht]

/-- Witness for C8 on a concrete empty leaf. -/
theorem treeInsert_emptyLeaf_panics_witness :
    (0 < 1 ∧ emptyLeaf.getNodeType = BNODE_LEAF ∧ emptyLeaf.getNumberOfKeys = 0) ∧
    (treeInsert 1 s0 emptyLeaf [97] [49]).1 = Except.error msgGetKey :=
  ⟨⟨Nat.one_pos, rfl, rfl⟩,
    treeInsert_emptyLeaf_panics 1 s0 emptyLeaf [97] [49] Nat.one_pos rfl rfl⟩

/- trace lemmas: every store-visiting function only appends to the call log -/

theorem replaceKidsLoop_trace : ∀ (kids : List BNode) (s : TreeSt) (nw : BNode)
    (idx i : Nat), ∃ t, (replaceKidsLoop s nw idx i kids).2.trace = s.trace ++ t := by
  intro kids
  induction kids with
  | nil =>
    intro s nw idx i
    exact ⟨[], by simp [replaceKidsLoop]⟩
  | cons kid rest ih =>
    intro s nw idx i
    cases hk : kid.getKey 0 with
    | none =>
      exact ⟨[Ev.alloc s.nextId], by simp [replaceKidsLoop, hk, stAlloc]⟩
    | some k =>
      cases ha : bnodeAppendKV nw s.nextId k [] (add16 idx i) with
      | error e =>
        exact ⟨[Ev.alloc s.nextId], by simp [replaceKidsLoop, hk, ha, stAlloc]⟩
      | ok nw2 =>
        obtain ⟨t, ht⟩ := ih
          (TreeSt.mk s.getFn (s.nextId + 1) (s.trace ++ [Ev.alloc s.nextId]))
          nw2 idx (i + 1)
        refine ⟨Ev.alloc s.nextId :: t, ?_⟩
        simp only [replaceKidsLoop, hk, stAlloc, ha]
        rw [ht]
        simp

theorem nodeReplaceKidN_trace (s : TreeSt) (nw old : BNode) (idx : Nat)
    (kids : List BNode) :
    ∃ t, (nodeReplaceKidN s nw old idx kids).2.trace = s.trace ++ t := by
  cases h1 : bnodeAppendRange
      (nw.setHeaders BNODE_NODE (sub16 (add16 old.getNumberOfKeys kids.length) 1))
      old 0 0 idx with
  | error e => exact ⟨[], by simp [nodeReplaceKidN, h1]⟩
  | ok nw1 =>
    obtain ⟨t, ht⟩ := replaceKidsLoop_trace kids s nw1 idx 0
    cases h2 : (replaceKidsLoop s nw1 idx 0 kids).1 with
    | error e =>
      refine ⟨t, ?_⟩
      simp only [nodeReplaceKidN, h1, h2]
      exact ht
    | ok nw2 =>
      cases h3 : bnodeAppendRange nw2 old (add16 idx kids.length) (add16 idx 1)
          (sub16 old.getNumberOfKeys (add16 idx 1)) with
      | error e =>
        refine ⟨t, ?_⟩
        simp only [nodeReplaceKidN, h1, h2, h3]
        exact ht
      | ok nw3 =>
        refine ⟨t, ?_⟩
        simp only [nodeReplaceKidN, h1, h2, h3]
        exact ht

theorem nodeInsertF_trace
    (rec : TreeSt → BNode → List Nat → List Nat → (Except String BNode) × TreeSt)
    (hrec : ∀ s node key value, ∃ t, (rec s node key value).2.trace = s.trace ++ t)
    (s : TreeSt) (nw node : BNode) (index : Nat) (key value : List Nat) :
    ∃ t, (nodeInsertF rec s nw node index key value).2.trace = s.trace ++ t := by
  cases hp : node.getPointer index with
  | none => exact ⟨[], by simp [nodeInsertF, hp]⟩
  | some p =>
    have hbase : (stDel (stGet s p).2 p).trace = s.trace ++ [Ev.get p, Ev.free p] := by
      simp [stGet, stDel]
    obtain ⟨t1, ht1⟩ := hrec (stDel (stGet s p).2 p) (stGet s p).1 key value
    cases hr : (rec (stDel (stGet s p).2 p) (stGet s p).1 key value).1 with
    | error e =>
      refine ⟨Ev.get p :: Ev.free p :: t1, ?_⟩
      simp only [nodeInsertF, hp, hr]
      rw [ht1, hbase]
      simp
    | ok child2 =>
      cases hsp : nodeSplit3 child2 with
      | error e =>
        refine ⟨Ev.get p :: Ev.free p :: t1, ?_⟩
        simp only [nodeInsertF, hp, hr, hsp]
        rw [ht1, hbase]
        simp
      | ok ns =>
        obtain ⟨t2, ht2⟩ := nodeReplaceKidN_trace
          (rec (stDel (stGet s p).2 p) (stGet s p).1 key value).2 nw node index
          (ns.2.take ns.1)
        refine ⟨Ev.get p :: Ev.free p :: (t1 ++ t2), ?_⟩
        simp only [nodeInsertF, hp, hr, hsp]
        rw [ht2, ht1, hbase]
        simp

theorem treeInsert_trace : ∀ (fuel : Nat) (s : TreeSt) (node : BNode)
    (key value : List Nat),
    ∃ t, (treeInsert fuel s node key value).2.trace = s.trace ++ t := by
  intro fuel
  induction fuel with
  | zero =>
    intro s node key value
    exact ⟨[], by simp [treeInsert]⟩
  | succ f ih =>
    intro s node key value
    cases hl : nodeLookUp node key with
    | none => exact ⟨[], by simp [treeInsert, hl]⟩
    | some index =>
      by_cases ht : node.getNodeType = BNODE_LEAF
      · cases hk : node.getKey index with
        | none => exact ⟨[], by simp [treeInsert, hl, ht, hk]⟩
        | some k =>
          refine ⟨[], ?_⟩
          simp only [treeInsert, hl, hk]
          rw [if_pos ht]
          by_cases he : key = k
          · rw [if_pos he]
            simp
          · rw [if_neg he]
            simp
      · by_cases ht2 : node.getNodeType = BNODE_NODE
        · obtain ⟨t, htr⟩ := nodeInsertF_trace (treeInsert f) ih s
            (BNode.mk (List.replicate (2 * BTREE_PAGE_SIZE) 0)) node index key value
          refine ⟨t, ?_⟩
          simp only [treeInsert, hl]
          rw [if_neg ht, if_pos ht2]
          exact htr
        · exact ⟨[], by simp [treeInsert, hl, ht, ht2]⟩

/-- C9: in every execution of insertIntoChild (nodeInsert) on a valid child
slot, the store call log begins with the get of the child pointer followed
immediately by the free of that same id; every event of the recursive insert
and every allocate of the replacement fragments lands in the remainder, so
the free of the old child id precedes every allocate of the mutation step. -/
theorem nodeInsert_free_before_alloc (fuel : Nat) (s : TreeSt) (nw node : BNode)
    (index : Nat) (key value : List Nat) (p : Nat)
    (hp : node.getPointer index = some p) :
    ∃ rest, (nodeInsert fuel s nw node index key value).2.trace
      = s.trace ++ Ev.get p :: Ev.free p :: rest := by
  have hbase : (stDel (stGet s p).2 p).trace = s.trace ++ [Ev.get p, Ev.free p] := by
    simp [stGet, stDel]
  obtain ⟨t1, ht1⟩ := treeInsert_trace fuel (stDel (stGet s p).2 p) (stGet s p).1 key value
  cases hr : (treeInsert fuel (stDel (stGet s p).2 p) (stGet s p).1 key value).1 with
  | error e =>
    refine ⟨t1, ?_⟩
    simp only [nodeInsert, nodeInsertF, hp, hr]
    rw [ht1, hbase]
    simp
  | ok child2 =>
    cases hsp : nodeSplit3 child2 with
    | error e =>
      refine ⟨t1, ?_⟩
      simp only [nodeInsert, nodeInsertF, hp, hr, hsp]
      rw [ht1, hbase]
      simp
    | ok ns =>
      obtain ⟨t2, ht2⟩ := nodeReplaceKidN_trace
        (treeInsert fuel (stDel (stGet s p).2 p) (stGet s p).1 key value).2 nw node
        index (ns.2.take ns.1)
      refine ⟨t1 ++ t2, ?_⟩
      simp only [nodeInsert, nodeInsertF, hp, hr, hsp]
      rw [ht2, ht1, hbase]
      simp

/-- Witness for C9: a one-key internal node whose child pointer is page 7;
the log of the run starts with get 7 then free 7. -/
theorem nodeInsert_free_before_alloc_witness :
    BNode.getPointer oldInternal 0 = some 7 ∧
    ∃ rest, (nodeInsert 1 s1 workBuf oldInternal 0 [107] [5]).2.trace
      = s1.trace ++ Ev.get 7 :: Ev.free 7 :: rest :=
  ⟨rfl, nodeInsert_free_before_alloc 1 s1 workBuf oldInternal 0 [107] [5] 7 rfl⟩

/- lemmas about the file-system model -/

theorem fsLookup_fsRemove_self : ∀ (fs : FS) (q : String),
    fsLookup (fsRemove fs q) q = none := by
  intro fs q
  induction fs with
  | nil => rfl
  | cons e rest ih =>
    obtain ⟨a, c⟩ := e
    simp only [fsRemove]
    by_cases h : a = q
    · rw [if_pos h]
      exact ih
    · rw [if_neg h]
      simp only [fsLookup]
      rw [if_neg h]
      exact ih

theorem fsLookup_fsRemove_ne : ∀ (fs : FS) (p q : String), q ≠ p →
    fsLookup (fsRemove fs q) p = fsLookup fs p := by
  intro fs p q h
  induction fs with
  | nil => rfl
  | cons e rest ih =>
    obtain ⟨a, c⟩ := e
    simp only [fsRemove, fsLookup]
    by_cases ha : a = q
    · rw [if_pos ha, if_neg (by rw [ha]; exact h)]
      exact ih
    · rw [if_neg ha]
      simp only [fsLookup]
      by_cases hap : a = p
      · rw [if_pos hap, if_pos hap]
      · rw [if_neg hap, if_neg hap]
        exact ih

theorem fsLookup_fsSet_self (fs : FS) (p : String) (c : List Nat) :
    fsLookup (fsSet fs p c) p = some c := by
  simp [fsSet, fsLookup]

theorem fsLookup_fsSet_ne (fs : FS) (p q : String) (c : List Nat) (h : q ≠ p) :
    fsLookup (fsSet fs q c) p = fsLookup fs p := by
  simp only [fsSet, fsLookup]
  rw [if_neg h]
  exact fsLookup_fsRemove_ne fs p q h

theorem tempFile_ne (path : String) (r : Nat) :
    path ++ ".tmp." ++ toString r ≠ path := by
  intro h
  have hl := congrArg String.length h
  rw [String.length_append, String.length_append] at hl
  have h5 : String.length ".tmp." = 5 := rfl
  rw [h5] at hl
  omega

/-- C10: atomicReplace (saveDataAtomic) writes to a temporary file named by
suffixing the target path, created exclusively (it fails, touching nothing,
when that temporary file already exists); on a write failure it deletes the
temporary file and reports the error, leaving the target path unchanged and
no temporary file behind; on success the temporary file is renamed over the
target, which then holds exactly the written bytes. -/
theorem saveDataAtomic_spec (fs : FS) (r : Nat) (path : String) (data : List Nat) :
    ((fsLookup fs (path ++ ".tmp." ++ toString r)).isSome →
      ∀ wf, saveDataAtomic fs r wf path data = (fs, some msgExists)) ∧
    (fsLookup fs (path ++ ".tmp." ++ toString r) = none →
      fsLookup (saveDataAtomic fs r true path data).1 path = fsLookup fs path ∧
      fsLookup (saveDataAtomic fs r true path data).1
        (path ++ ".tmp." ++ toString r) = none ∧
      (saveDataAtomic fs r true path data).2 = some msgWriteFail) ∧
    (fsLookup fs (path ++ ".tmp." ++ toString r) = none →
      fsLookup (saveDataAtomic fs r false path data).1 path = some data ∧
      fsLookup (saveDataAtomic fs r false path data).1
        (path ++ ".tmp." ++ toString r) = none ∧
      (saveDataAtomic fs r false path data).2 = none) := by
  have hne : path ++ ".tmp." ++ toString r ≠ path := tempFile_ne path r
  refine ⟨?_, ?_, ?_⟩
  · intro hsome wf
    obtain ⟨c, hc⟩ := Option.isSome_iff_exists.mp hsome
    simp [saveDataAtomic, hc]
  · intro hnone
    have h2 : saveDataAtomic fs r true path data
        = (fsRemove (fsSet fs (path ++ ".tmp." ++ toString r) [])
            (path ++ ".tmp." ++ toString r), some msgWriteFail) := by
      simp only [saveDataAtomic, hnone]
      rw [if_pos trivial]
    rw [h2]
    exact ⟨(fsLookup_fsRemove_ne _ _ _ hne).trans
        (fsLookup_fsSet_ne _ _ _ _ hne),
      fsLookup_fsRemove_self _ _, rfl⟩
  · intro hnone
    have hren : fsRename
        (fsSet (fsSet fs (path ++ ".tmp." ++ toString r) [])
          (path ++ ".tmp." ++ toString r) data)
        (path ++ ".tmp." ++ toString r) path
        = fsSet (fsRemove (fsSet (fsSet fs (path ++ ".tmp." ++ toString r) [])
            (path ++ ".tmp." ++ toString r) data) (path ++ ".tmp." ++ toString r))
          path data := by
      unfold fsRename
      rw [fsLookup_fsSet_self]
    have h3 : saveDataAtomic fs r false path data
        = (fsSet (fsRemove (fsSet (fsSet fs (path ++ ".tmp." ++ toString r) [])
            (path ++ ".tmp." ++ toString r) data) (path ++ ".tmp." ++ toString r))
            path data, none) := by
      simp only [saveDataAtomic, hnone]
      rw [if_neg Bool.false_ne_true, hren]
    rw [h3]
    exact ⟨fsLookup_fsSet_self _ _ _,
      (fsLookup_fsSet_ne _ _ _ _ (Ne.symm hne)).trans (fsLookup_fsRemove_self _ _),
      rfl⟩

/-- Witness for C10 on a one-file system: the successful call replaces the
content of db and leaves no temporary file; the failing write leaves db
unchanged. -/
theorem saveDataAtomic_spec_witness :
    fsLookup exFS ("db" ++ ".tmp." ++ toString 0) = none ∧
    (fsLookup (saveDataAtomic exFS 0 false "db" [1, 2]).1 "db" = some [1, 2] ∧
      fsLookup (saveDataAtomic exFS 0 false "db" [1, 2]).1
        ("db" ++ ".tmp." ++ toString 0) = none ∧
      (saveDataAtomic exFS 0 false "db" [1, 2]).2 = none) ∧
    (fsLookup (saveDataAtomic exFS 0 true "db" [1, 2]).1 "db" = fsLookup exFS "db" ∧
      fsLookup (saveDataAtomic exFS 0 true "db" [1, 2]).1
        ("db" ++ ".tmp." ++ toString 0) = none ∧
      (saveDataAtomic exFS 0 true "db" [1, 2]).2 = some msgWriteFail) :=
  ⟨by decide, (saveDataAtomic_spec exFS 0 "db" [1, 2]).2.2 (by decide),
    (saveDataAtomic_spec exFS 0 "db" [1, 2]).2.1 (by decide)⟩

end BT
